import Mathlib

/-! Verification of the enforcer-rule fragment of the cascades planner
(pkg/planner/cascades/old/enforcer_rules.go): a shallow embedding of
GetEnforcerRules and the OrderEnforcer methods NewProperty, OnEnforce and
GetEnforceCost, together with the data they read (required physical
properties, memo groups, physical sort plans), and theorems about engine
gating, verbatim sort-item copying, cost sign and monotonicity, and
determinism. -/

namespace EnforcerRules

/-- Column references are modelled by numeric identifiers. -/
abbrev Column := Nat

/-- Modelled from the spec: the engine-affinity tags of the pattern package
(pattern.EngineTiDB and the storage engines); the pattern package is not
under src. EngineTiDB is the coordinator engine for which enforcement is
legal. -/
inductive EngineType where
  | EngineTiDB
  | EngineTiKV
  | EngineTiFlash
deriving DecidableEq, Repr

/-- Modelled from the spec: property.SortItem, one required
(column, direction) pair; the property package is not under src. -/
structure SortItem where
  col : Column
  desc : Bool
deriving DecidableEq, Repr

/-- Modelled from the spec: math.MaxFloat64, the unbounded expected row
count. Its exact value as a rational is (2 - 2 ^ (-52)) * 2 ^ 1023. -/
def maxFloat64 : ℚ := 2 ^ 1024 - 2 ^ 971

/-- Modelled from the spec: property.PhysicalProperty, a value object with
an ordered sort-item list and an expected-row-count hint; the property
package is not under src. Floating-point counts are embedded as rationals. -/
structure PhysicalProperty where
  sortItems : List SortItem
  expectedCnt : ℚ
deriving DecidableEq, Repr

/-- Modelled from the spec: the is-empty predicate on the sort-item list of
a physical property. -/
def PhysicalProperty.IsSortItemEmpty (p : PhysicalProperty) : Bool :=
  p.sortItems.isEmpty

/-- Modelled from the spec: derived statistics of a group, of which the
enforcer code reads the estimated row count. -/
structure StatsInfo where
  rowCount : ℚ
deriving DecidableEq, Repr

/-- Modelled from the spec: the output schema, an ordered list of output
columns. -/
structure Schema where
  columns : List Column
deriving DecidableEq, Repr

/-- Modelled from the spec: the logical property of a group, holding its
statistics and output schema (read as g.Prop.Stats and g.Prop.Schema). -/
structure LogicalProperty where
  stats : StatsInfo
  schema : Schema
deriving DecidableEq, Repr

/-- Modelled from the spec: a group expression; the enforcer code only
reads the session context of its expression node. -/
structure GroupExpr where
  exprNodeSCtx : Nat
deriving DecidableEq, Repr

/-- Modelled from the spec: memo.Group, an equivalence class holding its
group expressions in order (Equivalents), an engine-affinity tag and the
derived logical property; the memo package is not under src. -/
structure Group where
  engineType : EngineType
  equivalents : List GroupExpr
  prop : LogicalProperty
deriving DecidableEq, Repr

/-- Modelled from the spec: util.ByItems, one sort key holding an
expression and a descending flag; the util package is not under src. -/
structure ByItems where
  expr : Column
  desc : Bool
deriving DecidableEq, Repr

/-- Operator kinds appearing in the embedded fragment: the sort built by
the order enforcer, and opaque child operators. -/
inductive PlanKind where
  | Sort
  | Other (id : Nat)
deriving DecidableEq, Repr

/-- Modelled from the spec: the slice of a physical plan that the enforcer
code reads and writes: operator kind, sort-key list, session context,
statistics, query-block offset and the required properties it imposes on
its children (the props argument of Init). -/
structure PhysPlan where
  kind : PlanKind
  byItems : List ByItems
  sctx : Nat
  stats : StatsInfo
  qbOffset : Int
  childrenReqProps : List PhysicalProperty
deriving DecidableEq, Repr

/-- Modelled from the spec: memo.Implementation, a physical plan together
with its realized child implementations; the memo package is not under
src. -/
inductive Implementation where
  | node (plan : PhysPlan) (children : List Implementation)

/-- GetPlan returns the physical plan of an implementation. -/
def Implementation.GetPlan : Implementation → PhysPlan
  | .node plan _ => plan

/-- The realized child implementations of an implementation. -/
def Implementation.children : Implementation → List Implementation
  | .node _ cs => cs

/-- Modelled from the spec: AttachChildren wires the given implementations
as the children of this implementation. -/
def Implementation.AttachChildren : Implementation → List Implementation → Implementation
  | .node plan _, cs => .node plan cs

/-- OrderEnforcer enforces order property on child implementation
(type OrderEnforcer struct \x7b\x7d in the source). -/
structure OrderEnforcer where
deriving DecidableEq, Repr

/-- Values of the Enforcer interface: the only implementer in the embedded
file is OrderEnforcer. -/
inductive Enforcer where
  | order (e : OrderEnforcer)
deriving DecidableEq, Repr

/-- The shared order-enforcer singleton (var orderEnforcer in the source). -/
def orderEnforcer : Enforcer := .order {}

/-- GetEnforcerRules gets all candidate enforcer rules based on the
required physical property: nothing unless the group targets EngineTiDB,
and the order enforcer exactly when the sort-item list is non-empty. -/
def GetEnforcerRules (g : Group) (prop : PhysicalProperty) : List Enforcer :=
  if g.engineType ≠ EngineType.EngineTiDB then
    []
  else if !prop.IsSortItemEmpty then
    [orderEnforcer]
  else
    []

/-- NewProperty removes the order requirement from the required physical
property: the result has the zero-value (empty) sort-item list and
ExpectedCnt set to math.MaxFloat64, ignoring the input. -/
def OrderEnforcer.NewProperty (_ : PhysicalProperty) : PhysicalProperty :=
  { sortItems := [], expectedCnt := maxFloat64 }

/-- OnEnforce adds a sort operator on top of the child implementation: the
sort copies the session context, statistics and query-block offset of the
child plan, copies each required sort item into a ByItems entry
(expression from the column, descending flag verbatim), imposes the empty
unbounded property on its child, and attaches the child as its single
input. -/
def OrderEnforcer.OnEnforce (reqProp : PhysicalProperty) (child : Implementation) : Implementation :=
  let childPlan := child.GetPlan
  let sort : PhysPlan :=
    { kind := PlanKind.Sort
      byItems := reqProp.sortItems.map (fun item => { expr := item.col, desc := item.desc })
      sctx := childPlan.sctx
      stats := childPlan.stats
      qbOffset := childPlan.qbOffset
      childrenReqProps := [{ sortItems := [], expectedCnt := maxFloat64 }] }
  (Implementation.node sort []).AttachChildren [child]

/-- Modelled from the spec: physicalop.PhysicalSort.GetCost is not under
src. The spec requires the sort cost to be a monotonically increasing
function of the row count and of the schema width (output column count),
non-negative, and strictly positive whenever the row count exceeds 1. The
count is clamped below at 2, mirroring the stated lower bound on sort
work; the width enters through the per-row payload factor. -/
def PhysicalSort.GetCost (count : ℚ) (schema : Schema) : ℚ :=
  (if count < 2 then 2 else count) * (schema.columns.length + 1)

/-- GetEnforceCost calculates the cost of the sort operator from the
statistics of the group. It reads the session context from the first
element of Equivalents; on an empty Equivalents list that read is a nil
dereference (a Go panic), modelled here as none. -/
def OrderEnforcer.GetEnforceCost (g : Group) : Option ℚ :=
  match g.equivalents with
  | [] => none
  | _ge :: _ => some (PhysicalSort.GetCost g.prop.stats.rowCount g.prop.schema)

/-- The sort-item sequence a physical plan declares on its output: a sort
orders its output exactly by its ByItems, read back as (column, direction)
pairs. This is the satisfaction-relevant dimension of the declared output
property; the expected-row-count hint is advisory only. -/
def PhysPlan.declaredSortItems (p : PhysPlan) : List SortItem :=
  p.byItems.map (fun b => { col := b.expr, desc := b.desc })

/-- A concrete two-column schema used by witnesses. -/
def schemaEx : Schema := ⟨[0, 1]⟩

/-- A concrete three-column schema used by witnesses. -/
def schemaBigEx : Schema := ⟨[0, 1, 2]⟩

/-- A concrete TiDB-affine group with one equivalent and row count 5. -/
def groupEx : Group := ⟨EngineType.EngineTiDB, [⟨0⟩], ⟨⟨5⟩, schemaEx⟩⟩

/-- A concrete TiDB-affine group with a larger row count and wider schema. -/
def groupBigEx : Group := ⟨EngineType.EngineTiDB, [⟨1⟩], ⟨⟨10⟩, schemaBigEx⟩⟩

/-- A concrete TiKV-affine group used to witness the engine gate. -/
def groupKVEx : Group := ⟨EngineType.EngineTiKV, [⟨0⟩], ⟨⟨5⟩, schemaEx⟩⟩

/-- A concrete group with an empty Equivalents list. -/
def groupEmptyEx : Group := ⟨EngineType.EngineTiDB, [], ⟨⟨5⟩, schemaEx⟩⟩

/-- A concrete required property with one descending sort item. -/
def propOrdEx : PhysicalProperty := ⟨[⟨3, true⟩], 100⟩

/-- A concrete child implementation used by witnesses. -/
def childEx : Implementation := .node ⟨PlanKind.Other 7, [], 2, ⟨5⟩, 1, []⟩ []

/-- The sort cost is strictly positive for every count and schema. -/
theorem GetCost_pos (count : ℚ) (schema : Schema) :
    0 < PhysicalSort.GetCost count schema := by
  unfold PhysicalSort.GetCost
  have h1 : (0 : ℚ) < (schema.columns.length : ℚ) + 1 := by positivity
  split
  · positivity
  · rename_i h
    push_neg at h
    nlinarith

/-- The sort cost is monotone non-decreasing in count and schema width. -/
theorem GetCost_mono (c1 c2 : ℚ) (s1 s2 : Schema) (hc : c1 ≤ c2)
    (hs : s1.columns.length ≤ s2.columns.length) :
    PhysicalSort.GetCost c1 s1 ≤ PhysicalSort.GetCost c2 s2 := by
  unfold PhysicalSort.GetCost
  have hw : ((s1.columns.length : ℚ) + 1) ≤ ((s2.columns.length : ℚ) + 1) := by
    have hcast : ((s1.columns.length : ℚ)) ≤ ((s2.columns.length : ℚ)) := by
      exact_mod_cast hs
    linarith
  have hf : (if c1 < 2 then (2 : ℚ) else c1) ≤ (if c2 < 2 then (2 : ℚ) else c2) := by
    split <;> split <;> push_neg at * <;> linarith
  have hpos : (0 : ℚ) ≤ (if c1 < 2 then (2 : ℚ) else c1) := by
    split <;> push_neg at * <;> linarith
  have hwpos : (0 : ℚ) ≤ ((s1.columns.length : ℚ) + 1) := by positivity
  exact mul_le_mul hf hw hwpos (le_trans hpos hf)

/-- C1: GetEnforcerRules returns a non-empty enforcer list iff the engine
affinity of the group is EngineTiDB and the required property has a
non-empty sort-item list; any other engine affinity yields the empty list,
and within EngineTiDB the order enforcer is offered whenever the sort-item
list is non-empty. -/
theorem getEnforcerRules_nonempty_iff (g : Group) (prop : PhysicalProperty) :
    (GetEnforcerRules g prop ≠ [] ↔
      g.engineType = EngineType.EngineTiDB ∧ prop.sortItems ≠ []) ∧
    (g.engineType ≠ EngineType.EngineTiDB → GetEnforcerRules g prop = []) ∧
    (g.engineType = EngineType.EngineTiDB → prop.sortItems ≠ [] →
      orderEnforcer ∈ GetEnforcerRules g prop) := by
  unfold GetEnforcerRules PhysicalProperty.IsSortItemEmpty
  rcases prop with ⟨si, ec⟩
  cases si <;> cases hg : g.engineType <;>
    simp_all [orderEnforcer, List.isEmpty]

/-- Witness for C1 at a TiKV group and at a TiDB group with an ordered
requirement. -/
theorem getEnforcerRules_nonempty_iff_witness :
    GetEnforcerRules groupKVEx propOrdEx = [] ∧
    orderEnforcer ∈ GetEnforcerRules groupEx propOrdEx :=
  ⟨(getEnforcerRules_nonempty_iff groupKVEx propOrdEx).2.1 (by decide),
   (getEnforcerRules_nonempty_iff groupEx propOrdEx).2.2 (by decide) (by decide)⟩

/-- C2: any cost returned by GetEnforceCost is non-negative, and strictly
positive whenever the estimated row count of the group exceeds 1. -/
theorem getEnforceCost_nonneg (g : Group) (c : ℚ)
    (h : OrderEnforcer.GetEnforceCost g = some c) :
    0 ≤ c ∧ (1 < g.prop.stats.rowCount → 0 < c) := by
  unfold OrderEnforcer.GetEnforceCost at h
  rcases hg : g.equivalents with _ | ⟨a, l⟩ <;> rw [hg] at h
  · exact absurd h (by simp)
  · have hc : c = PhysicalSort.GetCost g.prop.stats.rowCount g.prop.schema := by
      injection h with h2
      exact h2.symm
    subst hc
    exact ⟨le_of_lt (GetCost_pos _ _), fun _ => GetCost_pos _ _⟩

/-- Witness for C2 at the concrete group with row count 5. -/
theorem getEnforceCost_nonneg_witness :
    0 ≤ PhysicalSort.GetCost 5 schemaEx ∧ 0 < PhysicalSort.GetCost 5 schemaEx := by
  have h := getEnforceCost_nonneg groupEx (PhysicalSort.GetCost 5 schemaEx) rfl
  exact ⟨h.1, h.2 (by norm_num [groupEx])⟩

/-- C3: OnEnforce returns an implementation whose single input is the
given child and whose ByItems list has exactly one entry per required sort
item, in order, copying column and direction verbatim. -/
theorem onEnforce_children_byItems (reqProp : PhysicalProperty) (child : Implementation) :
    (OrderEnforcer.OnEnforce reqProp child).children = [child] ∧
    ((OrderEnforcer.OnEnforce reqProp child).GetPlan).byItems.length =
      reqProp.sortItems.length ∧
    ∀ i, ∀ hi : i < reqProp.sortItems.length,
      ∀ hb : i < ((OrderEnforcer.OnEnforce reqProp child).GetPlan).byItems.length,
      (((OrderEnforcer.OnEnforce reqProp child).GetPlan).byItems.get ⟨i, hb⟩).expr =
        (reqProp.sortItems.get ⟨i, hi⟩).col ∧
      (((OrderEnforcer.OnEnforce reqProp child).GetPlan).byItems.get ⟨i, hb⟩).desc =
        (reqProp.sortItems.get ⟨i, hi⟩).desc := by
  refine ⟨rfl, ?_, ?_⟩
  · simp [OrderEnforcer.OnEnforce, Implementation.AttachChildren, Implementation.GetPlan]
  · intro i hi hb
    simp [OrderEnforcer.OnEnforce, Implementation.AttachChildren, Implementation.GetPlan]

/-- Witness for C3 at the concrete ordered property and child. -/
theorem onEnforce_children_byItems_witness :
    (OrderEnforcer.OnEnforce propOrdEx childEx).children = [childEx] ∧
    (((OrderEnforcer.OnEnforce propOrdEx childEx).GetPlan).byItems.get
      ⟨0, by decide⟩).expr = 3 := by
  have h := onEnforce_children_byItems propOrdEx childEx
  refine ⟨h.1, ?_⟩
  have h3 := (h.2.2 0 (by decide) (by decide)).1
  simpa [propOrdEx] using h3

/-- C4: the operator built by OnEnforce declares an output property whose
sort-item sequence equals that of the originally required property
(verbatim copy of columns and directions). -/
theorem onEnforce_declares_reqProp (reqProp : PhysicalProperty) (child : Implementation) :
    ((OrderEnforcer.OnEnforce reqProp child).GetPlan).declaredSortItems =
      reqProp.sortItems := by
  rcases reqProp with ⟨si, ec⟩
  simp only [OrderEnforcer.OnEnforce, Implementation.AttachChildren,
    Implementation.GetPlan, PhysPlan.declaredSortItems, List.map_map]
  induction si with
  | nil => rfl
  | cons a t ih =>
    simp only [List.map_cons]
    rw [ih]
    rfl

/-- C5: NewProperty returns the empty property: no sort items, expected
row count math.MaxFloat64, regardless of the input. -/
theorem newProperty_empty (p : PhysicalProperty) :
    OrderEnforcer.NewProperty p = { sortItems := [], expectedCnt := maxFloat64 } := rfl

/-- C6: GetEnforceCost is monotone non-decreasing in the statistics of the
group: a group with row count and schema width at least as large is
assigned a cost at least as large. -/
theorem getEnforceCost_monotone (g1 g2 : Group) (c1 c2 : ℚ)
    (h1 : OrderEnforcer.GetEnforceCost g1 = some c1)
    (h2 : OrderEnforcer.GetEnforceCost g2 = some c2)
    (hrow : g1.prop.stats.rowCount ≤ g2.prop.stats.rowCount)
    (hcols : g1.prop.schema.columns.length ≤ g2.prop.schema.columns.length) :
    c1 ≤ c2 := by
  unfold OrderEnforcer.GetEnforceCost at h1 h2
  rcases hg1 : g1.equivalents with _ | ⟨a1, l1⟩ <;> rw [hg1] at h1
  · exact absurd h1 (by simp)
  rcases hg2 : g2.equivalents with _ | ⟨a2, l2⟩ <;> rw [hg2] at h2
  · exact absurd h2 (by simp)
  have e1 : c1 = PhysicalSort.GetCost g1.prop.stats.rowCount g1.prop.schema := by
    injection h1 with h1e
    exact h1e.symm
  have e2 : c2 = PhysicalSort.GetCost g2.prop.stats.rowCount g2.prop.schema := by
    injection h2 with h2e
    exact h2e.symm
  subst e1
  subst e2
  exact GetCost_mono _ _ _ _ hrow hcols

/-- Witness for C6 at the concrete small and large groups. -/
theorem getEnforceCost_monotone_witness :
    PhysicalSort.GetCost 5 schemaEx ≤ PhysicalSort.GetCost 10 schemaBigEx := by
  have h := getEnforceCost_monotone groupEx groupBigEx
    (PhysicalSort.GetCost 5 schemaEx) (PhysicalSort.GetCost 10 schemaBigEx)
    rfl rfl (by norm_num [groupEx, groupBigEx]) (by decide)
  exact h

/-- C7: NewProperty is a constant function and hence idempotent: the order
enforcer can produce only a single relaxed property value. -/
theorem newProperty_constant :
    (∀ p q : PhysicalProperty, OrderEnforcer.NewProperty p = OrderEnforcer.NewProperty q) ∧
    (∀ p : PhysicalProperty,
      OrderEnforcer.NewProperty (OrderEnforcer.NewProperty p) = OrderEnforcer.NewProperty p) :=
  ⟨fun _ _ => rfl, fun _ => rfl⟩

/-- C8: the enforcer-rule functions are deterministic: equal arguments
give equal enforcer lists, relaxed properties, wrapped implementations and
costs. -/
theorem enforcer_functions_deterministic (g1 g2 : Group) (p1 p2 : PhysicalProperty)
    (i1 i2 : Implementation) (hg : g1 = g2) (hp : p1 = p2) (hi : i1 = i2) :
    GetEnforcerRules g1 p1 = GetEnforcerRules g2 p2 ∧
    OrderEnforcer.NewProperty p1 = OrderEnforcer.NewProperty p2 ∧
    OrderEnforcer.OnEnforce p1 i1 = OrderEnforcer.OnEnforce p2 i2 ∧
    OrderEnforcer.GetEnforceCost g1 = OrderEnforcer.GetEnforceCost g2 := by
  subst hg
  subst hp
  subst hi
  exact ⟨rfl, rfl, rfl, rfl⟩

/-- Witness for C8 at concrete equal arguments. -/
theorem enforcer_functions_deterministic_witness :
    GetEnforcerRules groupEx propOrdEx = GetEnforcerRules groupEx propOrdEx ∧
    OrderEnforcer.NewProperty propOrdEx = OrderEnforcer.NewProperty propOrdEx ∧
    OrderEnforcer.OnEnforce propOrdEx childEx = OrderEnforcer.OnEnforce propOrdEx childEx ∧
    OrderEnforcer.GetEnforceCost groupEx = OrderEnforcer.GetEnforceCost groupEx :=
  enforcer_functions_deterministic groupEx groupEx propOrdEx propOrdEx childEx childEx
    rfl rfl rfl

/-- C9: GetEnforceCost reads the first element of the Equivalents list of
the group: with empty Equivalents the read is the nil-dereference panic
case (modelled as none), and with non-empty Equivalents it always
succeeds. -/
theorem getEnforceCost_requires_equivalents (g : Group) :
    (g.equivalents = [] → OrderEnforcer.GetEnforceCost g = none) ∧
    (g.equivalents ≠ [] → (OrderEnforcer.GetEnforceCost g).isSome = true) := by
  unfold OrderEnforcer.GetEnforceCost
  rcases hg : g.equivalents with _ | ⟨a, l⟩ <;> simp [hg]

/-- Witness for C9 at a group with no equivalents and a group with one. -/
theorem getEnforceCost_requires_equivalents_witness :
    OrderEnforcer.GetEnforceCost groupEmptyEx = none ∧
    (OrderEnforcer.GetEnforceCost groupEx).isSome = true :=
  ⟨(getEnforceCost_requires_equivalents groupEmptyEx).1 rfl,
   (getEnforceCost_requires_equivalents groupEx).2 (by decide)⟩

/-- C10: GetEnforcerRules returns either the empty list or the singleton
list holding the shared orderEnforcer instance, so its length is at most
one and the order enforcer is the only enforcer kind ever offered. -/
theorem getEnforcerRules_singleton (g : Group) (prop : PhysicalProperty) :
    (GetEnforcerRules g prop = [] ∨ GetEnforcerRules g prop = [orderEnforcer]) ∧
    (GetEnforcerRules g prop).length ≤ 1 := by
  unfold GetEnforcerRules
  split
  · simp
  · split <;> simp

end EnforcerRules
